import Mathlib

/-!
Shallow embedding of the go-cabfile repository (packages cabfile and lvfscab)
and proofs about the claims of its specification.

Bytes are modelled as `Nat`, byte sequences as `List Nat`, and the fallible Go
functions as total Lean functions returning explicit result types.  The
external deflate decoder (`compress/flate`) is abstracted as a parameter
`Inflate`: given a sliding-window dictionary and a compressed payload it
returns the decoded byte stream, or `none` when the decoder fails before
producing the requested number of bytes.  Go runtime panics (out-of-range
slice indexing) are modelled by an explicit `panicked` result constructor.
-/

namespace GoCab

/-- Compression tag constants of cabfile.go: `compMask`, `compNone`, `compMSZIP`. -/
def compMask : Nat := 15

/-- The "no compression" folder tag (`compNone = 0x0`). -/
def compNone : Nat := 0

/-- The MS-ZIP folder tag (`compMSZIP = 0x1`). -/
def compMSZIP : Nat := 1

/-- Header flag bit `hdrPrevCabinet = 1`. -/
def hdrPrevCabinet : Nat := 1

/-- Header flag bit `hdrNextCabinet = 2`. -/
def hdrNextCabinet : Nat := 2

/-- The 4-byte Cabinet magic "MSCF" as bytes. -/
def mscfSig : List Nat := [77, 83, 67, 70]

/-- The 2-byte MS-ZIP block signature "CK" as bytes. -/
def mszipSig : List Nat := [67, 75]

/-- `cfHeader` of cabfile.go, field for field. -/
structure CFHeader where
  signature : List Nat
  reserved1 : Nat
  cbCabinet : Nat
  reserved2 : Nat
  coffFiles : Nat
  reserved3 : Nat
  versionMinor : Nat
  versionMajor : Nat
  cFolders : Nat
  cFiles : Nat
  flags : Nat
  setID : Nat
  iCabinet : Nat
deriving DecidableEq

/-- `cfFolder` of cabfile.go. -/
structure CFFolder where
  coffCabStart : Nat
  ccfData : Nat
  typeCompress : Nat
deriving DecidableEq

/-- `cfFile` of cabfile.go together with the null-terminated name that follows
it in the file table (the Go code wraps both in the `file` struct). -/
structure CFFile where
  cbFile : Nat
  uoffFolderStart : Nat
  iFolder : Nat
  date : Nat
  time : Nat
  attribs : Nat
  name : String
deriving DecidableEq

/-- `cfData` of cabfile.go: the per-block header, plus the `cbData` payload
bytes that follow it in the archive (what the `c.r.Read(block)` call returns).
A truncated archive is modelled by a payload shorter than `cbData`. -/
structure CFData where
  checksum : Nat
  cbData : Nat
  cbUncomp : Nat
  payload : List Nat
deriving DecidableEq

/-- The error kinds surfaced by the Go code (each `fmt.Errorf`/`errors.New`
return in cabfile.go, identified by kind rather than message text). -/
inductive CabError where
  | badSignature
  | reservedViolation
  | unsupportedVersion
  | multiPart
  | unsupportedCompAtParse
  | truncatedFolders
  | truncatedFiles
  | folderOutOfRange
  | truncatedBlocks
  | shortBlockRead
  | sizeMismatch
  | badBlockSignature
  | decompressionFailure
  | unsupportedCompression
  | fileNotFound
  | invalidFileRead
  | fileReadEOF
deriving DecidableEq

/-- Outcome of `folderData`: a decompressed buffer, a returned error, or a Go
runtime panic. -/
inductive FolderResult where
  | ok (buf : List Nat)
  | err (e : CabError)
  | panicked
deriving DecidableEq

/-- Outcome of `Content`. -/
inductive ContentResult where
  | ok (bytes : List Nat)
  | err (e : CabError)
  | panicked
deriving DecidableEq

/-- Abstract deflate decoder (`compress/flate`): dictionary and compressed
payload to the decoded byte stream, `none` when decoding fails. -/
abbrev Inflate := List Nat → List Nat → Option (List Nat)

/-- The parsed `Cabinet` struct.  `blocksAt off` gives the sequence of data
blocks readable in the source starting at byte offset `off` (folderData seeks
to `coffCabStart` and reads blocks from there). -/
structure Cabinet where
  hdr : CFHeader
  fldrs : List CFFolder
  files : List CFFile
  blocksAt : Nat → List CFData

/-- The block loop of `folderData`: `cnt` blocks remain to be read, `blocks`
is what the source provides from the current position, `history` is the
MS-ZIP sliding-window buffer, `acc` is the output buffer `buf` so far. -/
def processBlocks (inflate : Inflate) (tc : Nat) :
    Nat → List CFData → List Nat → List Nat → FolderResult
  | 0, _, _, acc => .ok acc
  | Nat.succ _, [], _, _ => .err .truncatedBlocks
  | Nat.succ cnt, d :: rest, history, acc =>
    if d.payload.length ≠ d.cbData then .err .shortBlockRead
    else if tc = compNone then
      (if d.cbData ≠ d.cbUncomp then .err .sizeMismatch
       else processBlocks inflate tc cnt rest history (acc ++ d.payload))
    else if tc = compMSZIP then
      (if d.payload.length < 2 then .panicked
       else if d.payload.take 2 ≠ mszipSig then .err .badBlockSignature
       else
         match (if history = [] then inflate [] (d.payload.drop 2)
                else inflate history (d.payload.drop 2)) with
         | none => .err .decompressionFailure
         | some s =>
           if s.length < d.cbUncomp then .err .decompressionFailure
           else processBlocks inflate tc cnt rest (s.take d.cbUncomp)
                  (acc ++ s.take d.cbUncomp))
    else .err .unsupportedCompression

/-- `folderData` of cabfile.go: bounds-check the folder index, seek to the
folder's first block, then run the block loop.  Note the loop switches on the
full 16-bit `TypeCompress` field, not the masked low 4 bits. -/
def folderData (inflate : Inflate) (c : Cabinet) (idx : Nat) : FolderResult :=
  match c.fldrs[idx]? with
  | none => .err .folderOutOfRange
  | some fldr =>
    processBlocks inflate fldr.typeCompress fldr.ccfData
      (c.blocksAt fldr.coffCabStart) [] []

/-- The body of `Content` once a file entry has matched: decompress the owning
folder, seek to `UOffFolderStart`, perform the single `data.Read(blob)` of
`CBFile` bytes with the bytes.Reader semantics (`(0, io.EOF)` when the cursor
is at or past the end, otherwise copy `min` available bytes with nil error),
and apply the two checks `n != CBFile` / `err != nil`. -/
def contentOfFile (inflate : Inflate) (c : Cabinet) (f : CFFile) : ContentResult :=
  match folderData inflate c f.iFolder with
  | .panicked => .panicked
  | .err e => .err e
  | .ok data =>
    if data.length ≤ f.uoffFolderStart then
      (if f.cbFile ≠ 0 then .err .invalidFileRead else .err .fileReadEOF)
    else if min f.cbFile (data.length - f.uoffFolderStart) ≠ f.cbFile then
      .err .invalidFileRead
    else .ok ((data.drop f.uoffFolderStart).take f.cbFile)

/-- `Content` of cabfile.go: linear scan of the file table for the first
exact name match, then read that file's bytes; no match is the
"file not found" error. -/
def content (inflate : Inflate) (c : Cabinet) (name : String) : ContentResult :=
  match c.files.find? (fun f => f.name == name) with
  | none => .err .fileNotFound
  | some f => contentOfFile inflate c f

/-- A structured view of a seekable source from which the fixed-size header,
the folder table and the file table are readable: the decoded header record,
the folder records following it, the file records (with their names) at
`COFFFiles`, and the data blocks readable at each byte offset. -/
structure RawSource where
  hdr : CFHeader
  fldrs : List CFFolder
  files : List CFFile
  blocksAt : Nat → List CFData

/-- The CFFOLDER loop of `New`: read `n` folder records, rejecting a record
whose masked low-4-bit compression tag is neither none nor MS-ZIP. -/
def parseFolders : Nat → List CFFolder → Except CabError (List CFFolder)
  | 0, _ => .ok []
  | Nat.succ _, [] => .error .truncatedFolders
  | Nat.succ n, f :: rest =>
    if f.typeCompress &&& compMask = compNone ∨
       f.typeCompress &&& compMask = compMSZIP then
      match parseFolders n rest with
      | .ok l => .ok (f :: l)
      | .error e => .error e
    else .error .unsupportedCompAtParse

/-- The CFFILE loop of `New`: read `n` file records with their names. -/
def parseFiles : Nat → List CFFile → Except CabError (List CFFile)
  | 0, _ => .ok []
  | Nat.succ _, [] => .error .truncatedFiles
  | Nat.succ n, f :: rest =>
    match parseFiles n rest with
    | .ok l => .ok (f :: l)
    | .error e => .error e

/-- `New` of cabfile.go: the header sanity checks in source order (signature,
reserved fields, version, multi-part flags; the reserve-present flag check is
commented out in the source), then the folder and file table loops. -/
def newCab (src : RawSource) : Except CabError Cabinet :=
  let hdr := src.hdr
  if hdr.signature ≠ mscfSig then .error .badSignature
  else if hdr.reserved1 ≠ 0 ∨ hdr.reserved2 ≠ 0 ∨ hdr.reserved3 ≠ 0 then
    .error .reservedViolation
  else if hdr.versionMajor ≠ 1 ∨ hdr.versionMinor ≠ 3 then
    .error .unsupportedVersion
  else if hdr.flags &&& hdrPrevCabinet ≠ 0 ∨ hdr.flags &&& hdrNextCabinet ≠ 0 then
    .error .multiPart
  else
    match parseFolders hdr.cFolders src.fldrs with
    | .error e => .error e
    | .ok fldrs =>
      match parseFiles hdr.cFiles src.files with
      | .error e => .error e
      | .ok files => .ok ⟨hdr, fldrs, files, src.blocksAt⟩

/-- Whether an `Except` result is an error. -/
def isErrE (r : Except CabError Cabinet) : Bool :=
  match r with
  | .error _ => true
  | .ok _ => false

/-- Iterator state of `Next`: the cabinet, the `nextIdx` cursor, and the
`nextRdr` cached folder reader modelled as the decompressed buffer together
with its current cursor position (`bytes.Reader` state). -/
structure IterState where
  cab : Cabinet
  nextIdx : Nat
  cached : Option (List Nat × Nat)

/-- Result of one `Next` call: end of archive, a file (name and the
`LimitReader` byte budget, i.e. the declared file size), an error, or a panic
(nil cached reader, unreachable from a fresh iterator). -/
inductive NextRes where
  | eof
  | ok (name : String) (limit : Nat)
  | err (e : CabError)
  | panicked
deriving DecidableEq

/-- One `Next` step: the result, the successor state, and whether this call
invoked the folder decompression (`folderData`). -/
structure NextStep where
  res : NextRes
  st : IterState
  dec : Bool

/-- `Next` of cabfile.go: EOF past the table end; decompress the folder fresh
when this is the first call or the folder index changed relative to the
previous file; then seek the shared cached reader to the file's folder offset
and hand out a reader limited to the file's declared size. -/
def next (inflate : Inflate) (st : IterState) : NextStep :=
  match st.cab.files[st.nextIdx]? with
  | none => ⟨.eof, st, false⟩
  | some f =>
    if st.nextIdx == 0 ||
       ((st.cab.files[st.nextIdx - 1]?).map CFFile.iFolder != some f.iFolder) then
      match folderData inflate st.cab f.iFolder with
      | .ok buf =>
        ⟨.ok f.name f.cbFile,
         ⟨st.cab, st.nextIdx + 1, some (buf, f.uoffFolderStart)⟩, true⟩
      | .err e => ⟨.err e, st, true⟩
      | .panicked => ⟨.panicked, st, true⟩
    else
      match st.cached with
      | some (buf, _) =>
        ⟨.ok f.name f.cbFile,
         ⟨st.cab, st.nextIdx + 1, some (buf, f.uoffFolderStart)⟩, false⟩
      | none => ⟨.panicked, st, false⟩

/-- A fresh iterator over a parsed cabinet (`nextIdx = 0`, no cached reader). -/
def freshIter (c : Cabinet) : IterState := ⟨c, 0, none⟩

/-- Run `next` to exhaustion (fuel-bounded) counting how many calls invoked
folder decompression; iteration stops at EOF, an error, or a panic. -/
def countDecomps (inflate : Inflate) : Nat → IterState → Nat
  | 0, _ => 0
  | Nat.succ fuel, st =>
    match next inflate st with
    | ⟨.ok _ _, st1, dec⟩ =>
      (if dec then 1 else 0) + countDecomps inflate fuel st1
    | _ => 0

/-- Whether index `i` is a folder transition in the file table: `i = 0` or
file `i`'s folder index differs from file `i-1`'s. -/
def transPred (files : List CFFile) (i : Nat) : Bool :=
  i == 0 ||
    ((files[i - 1]?).map CFFile.iFolder != (files[i]?).map CFFile.iFolder)

/-- The folder-transition count `m` of the file table. -/
def folderTransitionCount (files : List CFFile) : Nat :=
  (List.range files.length).countP (transPred files)

/-- Fully reading (up to `limit` bytes) a reader handed out by `Next`, against
the iterator's current shared cached reader: the bytes from the shared
cursor position, at most `limit` of them. -/
def readShared (st : IterState) (limit : Nat) : List Nat :=
  match st.cached with
  | none => []
  | some (buf, pos) => (buf.drop pos).take limit

/-- Concatenation of per-block outputs. -/
def flatJoin : List (List Nat) → List Nat
  | [] => []
  | a :: l => a ++ flatJoin l

/-- Last element of a list of buffers, with a default: the dictionary in force
after a run of MS-ZIP blocks whose outputs are the list. -/
def lastD : List (List Nat) → List Nat → List Nat
  | [], dflt => dflt
  | a :: l, _ => lastD l a

/-- Declarative specification of a successful MS-ZIP block run: starting from
dictionary `hist`, the given blocks decode in order to the given per-block
outputs; each block's payload is complete, starts with the "CK" signature,
and inflates (seeded with the current dictionary) to a stream of at least its
declared uncompressed byte count, of which exactly that count is kept, and
the kept bytes become the next block's dictionary. -/
inductive MSZipDecodes (inflate : Inflate) :
    List Nat → List CFData → List (List Nat) → Prop
  | nil (hist : List Nat) : MSZipDecodes inflate hist [] []
  | cons (hist : List Nat) (d : CFData) (rest : List CFData)
      (s : List Nat) (outs : List (List Nat))
      (hlen : d.payload.length = d.cbData)
      (h2 : 2 ≤ d.payload.length)
      (hsig : d.payload.take 2 = mszipSig)
      (hinf : inflate hist (d.payload.drop 2) = some s)
      (hcnt : d.cbUncomp ≤ s.length)
      (hrest : MSZipDecodes inflate (s.take d.cbUncomp) rest outs) :
      MSZipDecodes inflate hist (d :: rest) (s.take d.cbUncomp :: outs)

end GoCab

namespace Lvfs

/-!
Model of `CompareVersions` of lvfscab.go.  The version parser and comparator
of the external dependency `github.com/blang/semver` (`semver.Make`, i.e.
`Parse`, and `Version.Compare`) are embedded from that library's behaviour:
split on the first two dots, numeric major/minor/patch components without
leading zeroes fitting in 64 bits, optional `+build` metadata and `-pre`
release identifiers on the third part, and the semver comparison (numeric
components first, then pre-release identifiers).  `strings.Compare` is the
byte-wise lexicographic comparison; on UTF-8 strings the byte order agrees
with the code-point order used here.
-/

/-- Go `containsOnly(s, numbers)`: every character is an ASCII digit. -/
def containsOnlyNum (s : List Char) : Bool := s.all Char.isDigit

/-- A character allowed in semver pre-release/build identifiers:
ASCII letters, digits and the dash. -/
def isAlphaNumChar (c : Char) : Bool := c.isAlpha || c.isDigit || c == '-'

/-- Go `hasLeadingZeroes`: length above one and a leading '0'. -/
def hasLeadingZeroes (s : List Char) : Bool :=
  decide (1 < s.length) && (s.head? == some '0')

/-- Decimal value of a digit string. -/
def natOfDigits (s : List Char) : Nat :=
  s.foldl (fun n c => n * 10 + (c.toNat - 48)) 0

/-- Go `strconv.ParseUint(s, 10, 64)` on a digits-only string: fails on the
empty string and on 64-bit overflow. -/
def parseUint64 (s : List Char) : Option Nat :=
  if s = [] then none
  else if natOfDigits s < 2 ^ 64 then some (natOfDigits s) else none

/-- Parse one numeric version component (major, minor or patch). -/
def parseNumPart (s : List Char) : Option Nat :=
  if ¬ containsOnlyNum s then none
  else if hasLeadingZeroes s then none
  else parseUint64 s

/-- Split a character list at the first occurrence of `sep`; `none` when the
separator does not occur (Go `strings.IndexRune` returning -1). -/
def breakOn (sep : Char) : List Char → Option (List Char × List Char)
  | [] => none
  | c :: rest =>
    if c = sep then some ([], rest)
    else
      match breakOn sep rest with
      | none => none
      | some (a, b) => some (c :: a, b)

/-- Helper for `splitOn`, carrying the current segment reversed. -/
def splitOnAux (sep : Char) : List Char → List Char → List (List Char)
  | [], cur => [cur.reverse]
  | c :: rest, cur =>
    if c = sep then cur.reverse :: splitOnAux sep rest []
    else splitOnAux sep rest (c :: cur)

/-- Go `strings.Split(s, sep)` for a one-character separator. -/
def splitOn (sep : Char) (s : List Char) : List (List Char) :=
  splitOnAux sep s []

/-- A semver pre-release identifier: numeric or alphanumeric. -/
inductive PRVersion where
  | num (n : Nat)
  | alnum (s : List Char)
deriving DecidableEq

/-- `semver.NewPRVersion`: numeric identifiers must have no leading zeroes
and fit 64 bits; otherwise the identifier must be alphanumeric. -/
def newPRVersion (s : List Char) : Option PRVersion :=
  if s = [] then none
  else if containsOnlyNum s then
    (if hasLeadingZeroes s then none
     else
       match parseUint64 s with
       | some n => some (.num n)
       | none => none)
  else if s.all isAlphaNumChar then some (.alnum s)
  else none

/-- Parse every pre-release identifier, failing if any fails. -/
def parsePRList : List (List Char) → Option (List PRVersion)
  | [] => some []
  | p :: rest =>
    match newPRVersion p, parsePRList rest with
    | some v, some l => some (v :: l)
    | _, _ => none

/-- Build metadata identifiers must be nonempty and alphanumeric. -/
def validBuildParts (l : List (List Char)) : Bool :=
  l.all (fun p => decide (p ≠ []) && p.all isAlphaNumChar)

/-- A parsed semantic version (build metadata is validated but not kept,
as it does not participate in comparison). -/
structure SemVer where
  major : Nat
  minor : Nat
  patch : Nat
  pre : List PRVersion
deriving DecidableEq

/-- `semver.Make` (= `semver.Parse`): split into `major.minor.rest`, parse
the numeric components, strip `+build` then `-pre` from the rest, validating
both. -/
def semverMake (str : String) : Option SemVer :=
  let s := str.data
  if s = [] then none
  else
    match breakOn '.' s with
    | none => none
    | some (majS, rest1) =>
      match breakOn '.' rest1 with
      | none => none
      | some (minS, patchEtc) =>
        match parseNumPart majS, parseNumPart minS with
        | some major, some minor =>
          let afterBuild :=
            match breakOn '+' patchEtc with
            | none => (patchEtc, none)
            | some (a, b) => (a, some (splitOn '.' b))
          let afterPre :=
            match breakOn '-' afterBuild.1 with
            | none => (afterBuild.1, none)
            | some (a, b) => (a, some (splitOn '.' b))
          match parseNumPart afterPre.1 with
          | none => none
          | some patch =>
            let preOpt :=
              match afterPre.2 with
              | none => some ([] : List PRVersion)
              | some parts => parsePRList parts
            let buildOk :=
              match afterBuild.2 with
              | none => true
              | some parts => validBuildParts parts
            match preOpt with
            | none => none
            | some pre =>
              if buildOk then some ⟨major, minor, patch, pre⟩ else none
        | _, _ => none

/-- Lexicographic strict order on character lists (code-point order, equal to
the byte-wise order of their UTF-8 encodings). -/
def listLt : List Char → List Char → Bool
  | [], [] => false
  | [], _ :: _ => true
  | _ :: _, [] => false
  | a :: as, b :: bs => if a < b then true else if b < a then false else listLt as bs

/-- Go `strings.Compare`. -/
def stringsCompare (a b : String) : Int :=
  if a.data = b.data then 0 else if listLt a.data b.data then -1 else 1

/-- `PRVersion.Compare` of blang/semver: numeric below alphanumeric, numeric
compared by value, alphanumeric by lexicographic string order. -/
def prCompare : PRVersion → PRVersion → Int
  | .num a, .num b => if a = b then 0 else if b < a then 1 else -1
  | .num _, .alnum _ => -1
  | .alnum _, .num _ => 1
  | .alnum a, .alnum b => if a = b then 0 else if listLt b a then 1 else -1

/-- The pairwise pre-release list comparison loop of `Version.Compare`
(a strict prefix is the smaller list). -/
def prListCompare : List PRVersion → List PRVersion → Int
  | [], [] => 0
  | [], _ :: _ => -1
  | _ :: _, [] => 1
  | a :: as, b :: bs =>
    if prCompare a b = 0 then prListCompare as bs else prCompare a b

/-- `Version.Compare` of blang/semver: major, minor, patch numerically, then
no-pre-release above any pre-release, then the pre-release lists pairwise. -/
def semverCompare (v o : SemVer) : Int :=
  if v.major ≠ o.major then (if o.major < v.major then 1 else -1)
  else if v.minor ≠ o.minor then (if o.minor < v.minor then 1 else -1)
  else if v.patch ≠ o.patch then (if o.patch < v.patch then 1 else -1)
  else
    match v.pre, o.pre with
    | [], [] => 0
    | [], _ :: _ => 1
    | _ :: _, [] => -1
    | a :: as, b :: bs => prListCompare (a :: as) (b :: bs)

/-- The purely component-wise numeric comparison of two structured versions
(major, then minor, then patch, left to right). -/
def componentCompare (v o : SemVer) : Int :=
  if v.major ≠ o.major then (if o.major < v.major then 1 else -1)
  else if v.minor ≠ o.minor then (if o.minor < v.minor then 1 else -1)
  else if v.patch ≠ o.patch then (if o.patch < v.patch then 1 else -1)
  else 0

/-- `CompareVersions` of lvfscab.go: semver comparison when both inputs parse
as semantic versions, byte-wise lexicographic string comparison otherwise. -/
def CompareVersions (v1 v2 : String) : Int :=
  match semverMake v1, semverMake v2 with
  | some s1, some s2 => semverCompare s1 s2
  | some _, none => stringsCompare v1 v2
  | none, some _ => stringsCompare v1 v2
  | none, none => stringsCompare v1 v2

end Lvfs

namespace GoCab

/-!  Concrete instances used by witnesses and counterexamples.  -/

/-- An inflate function that never succeeds (used where MS-ZIP is absent). -/
def inflNone : Inflate := fun _ _ => none

/-- An inflate function whose decoded stream is the compressed payload
itself (a convenient concrete decoder for witnesses). -/
def inflEcho : Inflate := fun _ payload => some payload

/-- A well-formed header with the given folder and file counts. -/
def hdrOk (nFolders nFiles : Nat) : CFHeader :=
  ⟨mscfSig, 0, 100, 0, 36, 0, 3, 1, nFolders, nFiles, 0, 0, 0⟩

/-- A file entry holding only the fields the witnesses care about. -/
def mkFile (size off fldr : Nat) (nm : String) : CFFile :=
  ⟨size, off, fldr, 0, 0, 0, nm⟩

/-- Source for the C3 witness: fully valid single-folder, single-file cabinet. -/
def srcOk : RawSource :=
  ⟨hdrOk 1 1, [⟨40, 0, 0⟩], [mkFile 4 0 0 "a"], fun _ => []⟩

/-- Source for the C3 witness rejection side: bad signature. -/
def srcBadSig : RawSource :=
  ⟨⟨[77, 83, 67, 71], 0, 100, 0, 36, 0, 3, 1, 0, 0, 0, 0, 0⟩, [], [], fun _ => []⟩

/-- The folder of the C7 counterexample: masked tag is `compNone` but the
full 16-bit field is 0x10. -/
def fldrHighBits : CFFolder := ⟨0, 1, 16⟩

/-- Source for the C7 counterexample. -/
def srcHighBits : RawSource :=
  ⟨hdrOk 1 0, [fldrHighBits], [], fun _ => [⟨0, 0, 0, []⟩]⟩

/-- The cabinet `New` produces from `srcHighBits`. -/
def cabHighBits : Cabinet :=
  ⟨hdrOk 1 0, [fldrHighBits], [], fun _ => [⟨0, 0, 0, []⟩]⟩

/-- Cabinet for the C8 failing input: an MS-ZIP folder whose single data
block declares a 1-byte compressed payload. -/
def cabShortBlock : Cabinet :=
  ⟨hdrOk 1 0, [⟨0, 1, 1⟩], [], fun _ => [⟨0, 1, 0, [67]⟩]⟩

/-- Cabinet for the C6 counterexample: an uncompressed folder of length 1 and
a zero-size file whose folder offset equals the folder's length. -/
def cabZeroAtEnd : Cabinet :=
  ⟨hdrOk 1 1, [⟨0, 1, 0⟩], [mkFile 0 1 0 "z"], fun _ => [⟨0, 1, 1, [65]⟩]⟩

/-- Cabinet for the C5 witness: an uncompressed folder of two blocks. -/
def cabNone2 : Cabinet :=
  ⟨hdrOk 1 1, [⟨0, 2, 0⟩], [mkFile 4 0 0 "a"],
   fun _ => [⟨0, 2, 2, [1, 2]⟩, ⟨0, 2, 2, [3, 4]⟩]⟩

/-- Cabinet for the C2 witness: an MS-ZIP folder of two blocks, each payload
being the "CK" signature followed by two literal bytes (decoded by
`inflEcho`). -/
def cabZip2 : Cabinet :=
  ⟨hdrOk 1 1, [⟨0, 2, 1⟩], [mkFile 4 0 0 "a"],
   fun _ => [⟨0, 4, 2, [67, 75, 9, 8]⟩, ⟨0, 4, 2, [67, 75, 3, 4]⟩]⟩

/-- Cabinet for the C1 witness: two file entries with the same name "a" in
one uncompressed folder. -/
def cabDupNames : Cabinet :=
  ⟨hdrOk 1 2, [⟨0, 1, 0⟩], [mkFile 2 0 0 "a", mkFile 2 2 0 "a"],
   fun _ => [⟨0, 4, 4, [10, 11, 12, 13]⟩]⟩

/-- Cabinet for the C4 witness: three files spanning two uncompressed
folders (transition count 2). -/
def cabThreeFiles : Cabinet :=
  ⟨hdrOk 2 3, [⟨0, 1, 0⟩, ⟨8, 1, 0⟩],
   [mkFile 2 0 0 "x", mkFile 2 0 0 "y", mkFile 2 0 1 "z"],
   fun _ => [⟨0, 2, 2, [1, 2]⟩]⟩

/-- Cabinet for the C10 demonstration: two files "a" and "b" at offsets 0 and
2 of one uncompressed folder with bytes 10, 11, 12, 13. -/
def cabTwoReaders : Cabinet :=
  ⟨hdrOk 1 2, [⟨0, 1, 0⟩], [mkFile 2 0 0 "a", mkFile 2 2 0 "b"],
   fun _ => [⟨0, 4, 4, [10, 11, 12, 13]⟩]⟩

/-- Whether a `FolderResult` is a successful buffer. -/
def isOkF : FolderResult → Bool
  | .ok _ => true
  | _ => false

end GoCab

namespace GoCab

/-! ### Helper lemmas about the embedded definitions -/

theorem parseFolders_ok (n : Nat) (l : List CFFolder) (hn : n ≤ l.length)
    (hsupp : ∀ f ∈ l.take n, f.typeCompress &&& compMask = compNone ∨
      f.typeCompress &&& compMask = compMSZIP) :
    parseFolders n l = .ok (l.take n) := by
  induction n generalizing l with
  | zero => simp [parseFolders]
  | succ n ih =>
    match l with
    | [] => simp at hn
    | f :: rest =>
      have hf : f.typeCompress &&& compMask = compNone ∨
          f.typeCompress &&& compMask = compMSZIP := by
        apply hsupp
        simp [List.take_succ_cons]
      have hrest : parseFolders n rest = .ok (rest.take n) := by
        apply ih rest (Nat.le_of_succ_le_succ hn)
        intro g hg
        exact hsupp g (by simp [List.take_succ_cons, hg])
      simp [parseFolders, hf, hrest, List.take_succ_cons]

theorem parseFiles_ok (n : Nat) (l : List CFFile) (hn : n ≤ l.length) :
    parseFiles n l = .ok (l.take n) := by
  induction n generalizing l with
  | zero => simp [parseFiles]
  | succ n ih =>
    match l with
    | [] => simp at hn
    | f :: rest =>
      have hrest : parseFiles n rest = .ok (rest.take n) :=
        ih rest (Nat.le_of_succ_le_succ hn)
      simp [parseFiles, hrest, List.take_succ_cons]

theorem processBlocks_ne_unsupported (inflate : Inflate) (tc : Nat)
    (htc : tc = compNone ∨ tc = compMSZIP) :
    ∀ cnt blocks hist acc,
      processBlocks inflate tc cnt blocks hist acc ≠ .err .unsupportedCompression := by
  intro cnt
  induction cnt with
  | zero => intro blocks hist acc; simp [processBlocks]
  | succ n ih =>
    intro blocks hist acc
    match blocks with
    | [] => simp [processBlocks]
    | d :: rest =>
      simp only [processBlocks]
      by_cases h1 : d.payload.length ≠ d.cbData
      · simp [h1]
      · rcases htc with h | h
        · subst h
          simp only [if_neg h1, if_pos rfl]
          by_cases h2 : d.cbData ≠ d.cbUncomp
          · simp [h2]
          · simp only [if_neg h2]
            exact ih rest hist (acc ++ d.payload)
        · subst h
          have hne : compMSZIP ≠ compNone := by decide
          simp only [if_neg h1, if_neg hne, if_pos rfl]
          by_cases h2 : d.payload.length < 2
          · simp [h2]
          · simp only [if_neg h2]
            by_cases h3 : d.payload.take 2 ≠ mszipSig
            · simp [h3]
            · simp only [if_neg h3]
              cases hr : (if hist = [] then inflate [] (d.payload.drop 2)
                  else inflate hist (d.payload.drop 2)) with
              | none => simp
              | some s =>
                by_cases h4 : s.length < d.cbUncomp
                · simp [h4]
                · simp only [if_neg h4]
                  exact ih rest (s.take d.cbUncomp) (acc ++ s.take d.cbUncomp)

theorem find?_first_match (l : List CFFile) (nm : String) :
    ∀ (i : Nat) (f : CFFile), l[i]? = some f → f.name = nm →
      (∀ j, j < i → ∀ g : CFFile, l[j]? = some g → g.name ≠ nm) →
      l.find? (fun g => g.name == nm) = some f := by
  induction l with
  | nil => intro i f hf; simp at hf
  | cons a rest ih =>
    intro i f hf hname hprev
    match i with
    | 0 =>
      rw [List.getElem?_cons_zero] at hf
      cases hf
      exact List.find?_cons_of_pos rest (by simpa using hname)
    | Nat.succ i =>
      rw [List.getElem?_cons_succ] at hf
      have ha : a.name ≠ nm := by
        apply hprev 0 (Nat.succ_pos i) a
        exact List.getElem?_cons_zero
      rw [List.find?_cons_of_neg rest (by simpa using ha)]
      apply ih i f hf hname
      intro j hj g hg
      exact hprev (j + 1) (Nat.succ_lt_succ hj) g (by simpa using hg)

/-! ### Claim theorems -/

/-- Claim C3: for every source with readable header, folder table and file
table whose folders all carry a supported masked compression tag, `New`
rejects the archive if and only if the magic differs from "MSCF", or the
version differs from 1.3, or a reserved field is nonzero, or a multi-part
flag is set. -/
theorem claim3_parse_iff (src : RawSource)
    (hfl : src.hdr.cFolders ≤ src.fldrs.length)
    (hfi : src.hdr.cFiles ≤ src.files.length)
    (hsupp : ∀ f ∈ src.fldrs.take src.hdr.cFolders,
      f.typeCompress &&& compMask = compNone ∨
      f.typeCompress &&& compMask = compMSZIP) :
    isErrE (newCab src) = true ↔
      (src.hdr.signature ≠ mscfSig ∨
       (src.hdr.versionMajor ≠ 1 ∨ src.hdr.versionMinor ≠ 3) ∨
       (src.hdr.reserved1 ≠ 0 ∨ src.hdr.reserved2 ≠ 0 ∨ src.hdr.reserved3 ≠ 0) ∨
       (src.hdr.flags &&& hdrPrevCabinet ≠ 0 ∨
        src.hdr.flags &&& hdrNextCabinet ≠ 0)) := by
  by_cases h1 : src.hdr.signature = mscfSig
  · by_cases h2 : src.hdr.reserved1 = 0 ∧ src.hdr.reserved2 = 0 ∧ src.hdr.reserved3 = 0
    · by_cases h3 : src.hdr.versionMajor = 1 ∧ src.hdr.versionMinor = 3
      · by_cases h4 : src.hdr.flags &&& hdrPrevCabinet = 0 ∧
            src.hdr.flags &&& hdrNextCabinet = 0
        · have e1 := parseFolders_ok src.hdr.cFolders src.fldrs hfl hsupp
          have e2 := parseFiles_ok src.hdr.cFiles src.files hfi
          simp [newCab, h1, h2.1, h2.2.1, h2.2.2, h3.1, h3.2, h4.1, h4.2,
            e1, e2, isErrE]
        · rcases Decidable.not_and_iff_or_not.mp h4 with h | h <;>
            simp [newCab, h1, h2.1, h2.2.1, h2.2.2, h3.1, h3.2, h, isErrE]
      · rcases Decidable.not_and_iff_or_not.mp h3 with h | h <;>
          simp [newCab, h1, h2.1, h2.2.1, h2.2.2, h, isErrE]
    · rcases Decidable.not_and_iff_or_not.mp h2 with h | h2'
      · simp [newCab, h1, h, isErrE]
      · rcases Decidable.not_and_iff_or_not.mp h2' with h | h <;>
          simp [newCab, h1, h, isErrE]
  · simp [newCab, h1, isErrE]

/-- Witness for C3: a fully valid source is accepted (and a bad-signature
source is rejected), instantiating the theorem at concrete inputs. -/
theorem claim3_parse_iff_witness :
    (isErrE (newCab srcOk) = true ↔
      (srcOk.hdr.signature ≠ mscfSig ∨
       (srcOk.hdr.versionMajor ≠ 1 ∨ srcOk.hdr.versionMinor ≠ 3) ∨
       (srcOk.hdr.reserved1 ≠ 0 ∨ srcOk.hdr.reserved2 ≠ 0 ∨ srcOk.hdr.reserved3 ≠ 0) ∨
       (srcOk.hdr.flags &&& hdrPrevCabinet ≠ 0 ∨
        srcOk.hdr.flags &&& hdrNextCabinet ≠ 0))) ∧
    (isErrE (newCab srcBadSig) = true ↔
      (srcBadSig.hdr.signature ≠ mscfSig ∨
       (srcBadSig.hdr.versionMajor ≠ 1 ∨ srcBadSig.hdr.versionMinor ≠ 3) ∨
       (srcBadSig.hdr.reserved1 ≠ 0 ∨ srcBadSig.hdr.reserved2 ≠ 0 ∨
        srcBadSig.hdr.reserved3 ≠ 0) ∨
       (srcBadSig.hdr.flags &&& hdrPrevCabinet ≠ 0 ∨
        srcBadSig.hdr.flags &&& hdrNextCabinet ≠ 0))) :=
  ⟨claim3_parse_iff srcOk (by decide) (by decide) (by decide),
   claim3_parse_iff srcBadSig (by decide) (by decide) (by decide)⟩

theorem processBlocks_none (inflate : Inflate) :
    ∀ (cnt : Nat) (blocks : List CFData) (hist acc : List Nat),
      cnt ≤ blocks.length →
      (∀ d ∈ blocks.take cnt, d.payload.length = d.cbData) →
      ((∀ d ∈ blocks.take cnt, d.cbData = d.cbUncomp) →
        processBlocks inflate compNone cnt blocks hist acc =
          .ok (acc ++ flatJoin ((blocks.take cnt).map CFData.payload))) ∧
      ((∃ d ∈ blocks.take cnt, d.cbData ≠ d.cbUncomp) →
        processBlocks inflate compNone cnt blocks hist acc = .err .sizeMismatch) := by
  intro cnt
  induction cnt with
  | zero =>
    intro blocks hist acc _ _
    refine ⟨fun _ => ?_, fun hex => ?_⟩
    · simp [processBlocks, flatJoin]
    · simp at hex
  | succ n ih =>
    intro blocks hist acc hn hread
    match blocks with
    | [] => simp at hn
    | d :: rest =>
      have hd : d.payload.length = d.cbData := by
        apply hread; simp [List.take_succ_cons]
      have hreadr : ∀ e ∈ rest.take n, e.payload.length = e.cbData := by
        intro e he; exact hread e (by simp [List.take_succ_cons, he])
      have hnr : n ≤ rest.length := Nat.le_of_succ_le_succ hn
      refine ⟨fun hall => ?_, fun hex => ?_⟩
      · have hdu : d.cbData = d.cbUncomp := by
          apply hall; simp [List.take_succ_cons]
        have hrest := (ih rest hist (acc ++ d.payload) hnr hreadr).1
          (fun e he => hall e (by simp [List.take_succ_cons, he]))
        simp only [processBlocks, if_neg (by simp [hd] : ¬ d.payload.length ≠ d.cbData),
          if_pos rfl, if_neg (by simp [hdu] : ¬ d.cbData ≠ d.cbUncomp)]
        rw [hrest]
        simp [List.take_succ_cons, flatJoin, List.append_assoc]
      · simp only [List.take_succ_cons] at hex
        rcases hex with ⟨e, he, hne⟩
        rcases List.mem_cons.mp he with rfl | her
        · simp [processBlocks, hd, hne]
        · by_cases hdu : d.cbData = d.cbUncomp
          · have hrest := (ih rest hist (acc ++ d.payload) hnr hreadr).2 ⟨e, her, hne⟩
            simp [processBlocks, hd, hdu, hrest]
          · simp [processBlocks, hd, hdu]

/-- Claim C5: for a folder whose compression field is the "none" tag, when
every block's payload is complete, `folderData` returns the in-order
concatenation of the raw block payloads, and any block whose compressed byte
count differs from its uncompressed byte count makes it fail with the size
mismatch error instead. -/
theorem claim5_none_folder (inflate : Inflate) (c : Cabinet) (idx : Nat)
    (fldr : CFFolder) (hf : c.fldrs[idx]? = some fldr)
    (htc : fldr.typeCompress = compNone)
    (hn : fldr.ccfData ≤ (c.blocksAt fldr.coffCabStart).length)
    (hread : ∀ d ∈ (c.blocksAt fldr.coffCabStart).take fldr.ccfData,
      d.payload.length = d.cbData) :
    ((∀ d ∈ (c.blocksAt fldr.coffCabStart).take fldr.ccfData,
        d.cbData = d.cbUncomp) →
      folderData inflate c idx =
        .ok (flatJoin (((c.blocksAt fldr.coffCabStart).take fldr.ccfData).map
          CFData.payload))) ∧
    ((∃ d ∈ (c.blocksAt fldr.coffCabStart).take fldr.ccfData,
        d.cbData ≠ d.cbUncomp) →
      folderData inflate c idx = .err .sizeMismatch) := by
  have h := processBlocks_none inflate fldr.ccfData (c.blocksAt fldr.coffCabStart)
    [] [] hn hread
  constructor
  · intro hall
    have := h.1 hall
    simp only [folderData, hf, htc]
    simpa using this
  · intro hex
    have := h.2 hex
    simp only [folderData, hf, htc]
    exact this

/-- Witness for C5 at a concrete two-block uncompressed folder. -/
theorem claim5_none_folder_witness :
    folderData inflEcho cabNone2 0 =
      .ok (flatJoin (((cabNone2.blocksAt 0).take 2).map CFData.payload)) :=
  (claim5_none_folder inflEcho cabNone2 0 ⟨0, 2, 0⟩ (by decide) (by decide)
    (by decide) (by decide)).1 (by decide)

/-- Claim C7 (amended): folders whose full 16-bit compression field equals
the none or MS-ZIP tag never make `folderData` fail with the unsupported
compression error.  The claim's stronger form — that this holds for every
parse-accepted cabinet, including folders with nonzero bits above the low
4 — is refuted by `claim7_counterexample`: parse masks the tag but
`folderData` switches on the full field. -/
theorem claim7_no_unsupported (inflate : Inflate) (src : RawSource)
    (cab : Cabinet) (_hacc : newCab src = .ok cab)
    (hfull : ∀ fldr ∈ cab.fldrs, fldr.typeCompress = compNone ∨
      fldr.typeCompress = compMSZIP) :
    ∀ idx, folderData inflate cab idx ≠ .err .unsupportedCompression := by
  intro idx
  cases hi : cab.fldrs[idx]? with
  | none => simp [folderData, hi]
  | some fldr =>
    have hmem : fldr ∈ cab.fldrs := by
      rcases List.getElem?_eq_some.mp hi with ⟨h, rfl⟩
      exact List.getElem_mem h
    simp only [folderData, hi]
    exact processBlocks_ne_unsupported inflate fldr.typeCompress (hfull fldr hmem)
      fldr.ccfData (cab.blocksAt fldr.coffCabStart) [] []

/-- Witness for C7's amended theorem at a concrete accepted cabinet. -/
theorem claim7_no_unsupported_witness :
    folderData inflEcho cabNone2 0 ≠ .err .unsupportedCompression :=
  claim7_no_unsupported inflEcho
    ⟨hdrOk 1 1, [⟨0, 2, 0⟩], [mkFile 4 0 0 "a"], cabNone2.blocksAt⟩
    cabNone2 (by rfl)
    (by intro fldr hm; rw [show cabNone2.fldrs = [⟨0, 2, 0⟩] from rfl] at hm;
        simp at hm; subst hm; exact Or.inl rfl) 0

/-- Counterexample to C7 as stated: `srcHighBits` is accepted by `New` (its
folder's masked tag is the none tag), yet `folderData` on its in-range folder
0 — whose full compression field is 0x10 — fails with the unsupported
compression error. -/
theorem claim7_counterexample :
    newCab srcHighBits = .ok cabHighBits ∧
    folderData inflEcho cabHighBits 0 = .err .unsupportedCompression :=
  ⟨rfl, by decide⟩

/-- Claim C8 (code bug): an MS-ZIP data block whose declared compressed byte
count is below 2 does not produce the bad-signature error the specification
requires; the Go expression `block[:2]` panics with a slice bounds violation.
Evaluating the embedding at the failing input (a single MS-ZIP block with
`CBData = 1`, payload "C") yields the panic outcome. -/
theorem claim8_short_block_panics :
    folderData inflEcho cabShortBlock 0 = .panicked ∧
    folderData inflEcho cabShortBlock 0 ≠ .err .badBlockSignature := by
  decide

/-- Claim C1: `Content` linearly scans the file table; when no entry carries
the requested name it fails with the file-not-found error, and when entries
match, the first matching entry is the one served: `Content` behaves as
reading that entry, and whenever it succeeds the returned bytes are exactly
the range `[fileOffset, fileOffset + fileSize)` of the buffer obtained by
decompressing the file's owning folder — a full-length, never partial,
result. -/
theorem claim1_content (inflate : Inflate) (c : Cabinet) (nm : String) :
    ((∀ f ∈ c.files, f.name ≠ nm) →
      content inflate c nm = .err .fileNotFound) ∧
    (∀ (i : Nat) (f : CFFile), c.files[i]? = some f → f.name = nm →
      (∀ j, j < i → ∀ g : CFFile, c.files[j]? = some g → g.name ≠ nm) →
      content inflate c nm = contentOfFile inflate c f ∧
      ∀ buf, content inflate c nm = .ok buf →
        ∃ data, folderData inflate c f.iFolder = .ok data ∧
          buf = (data.drop f.uoffFolderStart).take f.cbFile ∧
          buf.length = f.cbFile) := by
  constructor
  · intro hnone
    have hfind : c.files.find? (fun g => g.name == nm) = none := by
      rw [List.find?_eq_none]
      intro g hg
      simpa using hnone g hg
    simp [content, hfind]
  · intro i f hf hname hprev
    have hfind := find?_first_match c.files nm i f hf hname hprev
    have hc : content inflate c nm = contentOfFile inflate c f := by
      simp [content, hfind]
    refine ⟨hc, ?_⟩
    intro buf hok
    rw [hc] at hok
    unfold contentOfFile at hok
    cases hfd : folderData inflate c f.iFolder with
    | panicked => rw [hfd] at hok; simp at hok
    | err e => rw [hfd] at hok; simp at hok
    | ok data =>
      rw [hfd] at hok
      simp only at hok
      by_cases h1 : data.length ≤ f.uoffFolderStart
      · rw [if_pos h1] at hok
        by_cases h2 : f.cbFile ≠ 0 <;> simp [h2] at hok
      · rw [if_neg h1] at hok
        by_cases h2 : min f.cbFile (data.length - f.uoffFolderStart) ≠ f.cbFile
        · rw [if_pos h2] at hok; simp at hok
        · rw [if_neg h2] at hok
          have hbuf : buf = (data.drop f.uoffFolderStart).take f.cbFile := by
            cases hok; rfl
          refine ⟨data, rfl, hbuf, ?_⟩
          have hmin : min f.cbFile (data.length - f.uoffFolderStart) = f.cbFile :=
            Decidable.not_not.mp h2
          rw [hbuf]
          simp [List.length_take, List.length_drop, hmin]

/-- Witness for C1 at a cabinet with two identically named files: the first
entry wins and its exact bytes are returned. -/
theorem claim1_content_witness :
    content inflEcho cabDupNames "a" = contentOfFile inflEcho cabDupNames
      (mkFile 2 0 0 "a") ∧
    ∃ data, folderData inflEcho cabDupNames (mkFile 2 0 0 "a").iFolder = .ok data ∧
      ([10, 11] : List Nat) = (data.drop 0).take 2 ∧
      ([10, 11] : List Nat).length = 2 := by
  have h := (claim1_content inflEcho cabDupNames "a").2 0 (mkFile 2 0 0 "a")
    (by decide) (by decide) (by intro j hj; omega)
  refine ⟨h.1, ?_⟩
  have h2 := h.2 [10, 11] (by decide)
  simpa [mkFile] using h2

/-- Claim C6 (amended): for a matched file entry whose owning folder
decompresses to `data`, `Content` succeeds exactly when
`fileOffset + fileSize ≤ data.length` AND `fileOffset < data.length`, in
which case it returns the exact range; a zero-size file whose offset equals
the folder length is NOT served as empty content — the single read at the
end of the `bytes.Reader` yields `io.EOF` and `Content` fails — refuting the
claim's zero-size edge case (see `claim6_counterexample`). -/
theorem claim6_content_range (inflate : Inflate) (c : Cabinet) (nm : String)
    (f : CFFile) (data : List Nat)
    (hfind : c.files.find? (fun g => g.name == nm) = some f)
    (hfd : folderData inflate c f.iFolder = .ok data) :
    ((∃ bytes, content inflate c nm = .ok bytes) ↔
      (f.uoffFolderStart + f.cbFile ≤ data.length ∧
       f.uoffFolderStart < data.length)) ∧
    (∀ bytes, content inflate c nm = .ok bytes →
      bytes = (data.drop f.uoffFolderStart).take f.cbFile) ∧
    (data.length ≤ f.uoffFolderStart → f.cbFile = 0 →
      content inflate c nm = .err .fileReadEOF) := by
  have hc : content inflate c nm = contentOfFile inflate c f := by
    simp [content, hfind]
  rw [hc]
  unfold contentOfFile
  rw [hfd]
  simp only
  by_cases h1 : data.length ≤ f.uoffFolderStart
  · rw [if_pos h1]
    refine ⟨?_, ?_, ?_⟩
    · constructor
      · intro ⟨bytes, hb⟩
        by_cases h2 : f.cbFile ≠ 0 <;> simp [h2] at hb
      · intro ⟨_, hlt⟩
        omega
    · intro bytes hb
      by_cases h2 : f.cbFile ≠ 0 <;> simp [h2] at hb
    · intro _ h0
      simp [h0]
  · rw [if_neg h1]
    have hlt : f.uoffFolderStart < data.length := Nat.lt_of_not_le h1
    by_cases h2 : min f.cbFile (data.length - f.uoffFolderStart) ≠ f.cbFile
    · rw [if_pos h2]
      refine ⟨?_, ?_, ?_⟩
      · constructor
        · intro ⟨bytes, hb⟩; simp at hb
        · intro ⟨hle, _⟩
          exfalso
          apply h2
          have : f.cbFile ≤ data.length - f.uoffFolderStart := by omega
          simp [Nat.min_eq_left this]
      · intro bytes hb; simp at hb
      · intro hge; omega
    · rw [if_neg h2]
      have hmin : min f.cbFile (data.length - f.uoffFolderStart) = f.cbFile :=
        Decidable.not_not.mp h2
      refine ⟨?_, ?_, ?_⟩
      · constructor
        · intro _
          refine ⟨hmin ▸ ?_, hlt⟩
          omega
        · intro _
          exact ⟨_, rfl⟩
      · intro bytes hb
        cases hb; rfl
      · intro hge; omega

/-- Witness for C6's amended theorem: an in-bounds file is served exactly. -/
theorem claim6_content_range_witness :
    ((∃ bytes, content inflEcho cabDupNames "a" = .ok bytes) ↔
      ((0 : Nat) + 2 ≤ ([10, 11, 12, 13] : List Nat).length ∧
       (0 : Nat) < ([10, 11, 12, 13] : List Nat).length)) ∧
    (∀ bytes, content inflEcho cabDupNames "a" = .ok bytes →
      bytes = (([10, 11, 12, 13] : List Nat).drop 0).take 2) ∧
    (([10, 11, 12, 13] : List Nat).length ≤ 0 → 2 = 0 →
      content inflEcho cabDupNames "a" = .err .fileReadEOF) :=
  claim6_content_range inflEcho cabDupNames "a" (mkFile 2 0 0 "a")
    [10, 11, 12, 13] (by decide) (by decide)

/-- Counterexample to C6 as stated: in `cabZeroAtEnd` the zero-size file "z"
sits at offset 1 of a folder whose decompressed length is 1, so
`fileOffset + fileSize` does not exceed the folder length, yet `Content`
fails (with the EOF read error) instead of succeeding with empty content. -/
theorem claim6_counterexample :
    folderData inflEcho cabZeroAtEnd 0 = .ok [65] ∧
    content inflEcho cabZeroAtEnd "z" = .err .fileReadEOF ∧
    content inflEcho cabZeroAtEnd "z" ≠ .ok [] := by
  decide

theorem mszip_if_dict (inflate : Inflate) (hist p : List Nat) :
    (if hist = [] then inflate [] p else inflate hist p) = inflate hist p := by
  by_cases h : hist = [] <;> simp [h]

theorem mszip_cons_inv (inflate : Inflate) (hist : List Nat) (d : CFData)
    (rest : List CFData) (outs : List (List Nat))
    (h : MSZipDecodes inflate hist (d :: rest) outs) :
    ∃ s outs2, d.payload.length = d.cbData ∧ 2 ≤ d.payload.length ∧
      d.payload.take 2 = mszipSig ∧ inflate hist (d.payload.drop 2) = some s ∧
      d.cbUncomp ≤ s.length ∧ MSZipDecodes inflate (s.take d.cbUncomp) rest outs2 ∧
      outs = s.take d.cbUncomp :: outs2 := by
  cases h with
  | cons _ _ _ s outs2 hlen h2 hsig hinf hcnt hrest =>
    exact ⟨s, outs2, hlen, h2, hsig, hinf, hcnt, hrest, rfl⟩

theorem processBlocks_mszip_ok (inflate : Inflate) :
    ∀ (cnt : Nat) (blocks : List CFData) (hist acc buf : List Nat),
      cnt ≤ blocks.length →
      (processBlocks inflate compMSZIP cnt blocks hist acc = .ok buf ↔
        ∃ outs, MSZipDecodes inflate hist (blocks.take cnt) outs ∧
          buf = acc ++ flatJoin outs) := by
  intro cnt
  induction cnt with
  | zero =>
    intro blocks hist acc buf _
    simp only [processBlocks, List.take_zero]
    constructor
    · intro h
      refine ⟨[], MSZipDecodes.nil hist, ?_⟩
      cases h
      simp [flatJoin]
    · rintro ⟨outs, hdec, rfl⟩
      cases hdec
      simp [flatJoin]
  | succ n ih =>
    intro blocks hist acc buf hn
    match blocks with
    | [] => simp at hn
    | d :: rest =>
      have hnr : n ≤ rest.length := Nat.le_of_succ_le_succ hn
      simp only [processBlocks, List.take_succ_cons]
      by_cases h1 : d.payload.length ≠ d.cbData
      · rw [if_pos h1]
        constructor
        · intro h; simp at h
        · rintro ⟨outs, hdec, rfl⟩
          rcases mszip_cons_inv inflate hist d _ outs hdec with
            ⟨s, outs2, hlen, _, _, _, _, _, _⟩
          exact absurd hlen h1
      · rw [if_neg h1, if_neg (by decide : ¬ compMSZIP = compNone), if_pos True.intro]
        by_cases h2 : d.payload.length < 2
        · rw [if_pos h2]
          constructor
          · intro h; simp at h
          · rintro ⟨outs, hdec, rfl⟩
            rcases mszip_cons_inv inflate hist d _ outs hdec with
              ⟨s, outs2, _, hge2, _, _, _, _, _⟩
            omega
        · rw [if_neg h2]
          by_cases h3 : d.payload.take 2 ≠ mszipSig
          · rw [if_pos h3]
            constructor
            · intro h; simp at h
            · rintro ⟨outs, hdec, rfl⟩
              rcases mszip_cons_inv inflate hist d _ outs hdec with
                ⟨s, outs2, _, _, hsig, _, _, _, _⟩
              exact absurd hsig h3
          · rw [if_neg h3, mszip_if_dict]
            cases hr : inflate hist (d.payload.drop 2) with
            | none =>
              simp only []
              constructor
              · intro h; simp at h
              · rintro ⟨outs, hdec, rfl⟩
                rcases mszip_cons_inv inflate hist d _ outs hdec with
                  ⟨s, outs2, _, _, _, hinf, _, _, _⟩
                rw [hr] at hinf
                exact absurd hinf (by simp)
            | some s =>
              simp only []
              by_cases h4 : s.length < d.cbUncomp
              · rw [if_pos h4]
                constructor
                · intro h; simp at h
                · rintro ⟨outs, hdec, rfl⟩
                  rcases mszip_cons_inv inflate hist d _ outs hdec with
                    ⟨s2, outs2, _, _, _, hinf, hcnt, _, _⟩
                  rw [hr] at hinf
                  cases hinf
                  omega
              · rw [if_neg h4]
                rw [ih rest (s.take d.cbUncomp) (acc ++ s.take d.cbUncomp) buf hnr]
                constructor
                · rintro ⟨outs2, hdec2, rfl⟩
                  refine ⟨s.take d.cbUncomp :: outs2, ?_, ?_⟩
                  · exact MSZipDecodes.cons hist d _ s outs2
                      (Decidable.not_not.mp h1) (Nat.le_of_not_lt h2)
                      (Decidable.not_not.mp h3) hr (Nat.le_of_not_lt h4) hdec2
                  · simp [flatJoin, List.append_assoc]
                · rintro ⟨outs, hdec, rfl⟩
                  rcases mszip_cons_inv inflate hist d _ outs hdec with
                    ⟨s2, outs2, _, _, _, hinf, _, hrest2, rfl⟩
                  rw [hr] at hinf
                  cases hinf
                  exact ⟨outs2, hrest2, by simp [flatJoin, List.append_assoc]⟩

theorem processBlocks_mszip_run (inflate : Inflate) :
    ∀ (pre : List CFData) (hist : List Nat) (outs : List (List Nat)),
      MSZipDecodes inflate hist pre outs →
      ∀ (cnt : Nat) (tail : List CFData) (acc : List Nat),
        pre.length ≤ cnt →
        processBlocks inflate compMSZIP cnt (pre ++ tail) hist acc =
          processBlocks inflate compMSZIP (cnt - pre.length) tail
            (lastD outs hist) (acc ++ flatJoin outs) := by
  intro pre hist outs h
  induction h with
  | nil hist =>
    intro cnt tail acc _
    simp [lastD, flatJoin]
  | cons hist d pre2 s outs2 hlen h2 hsig hinf hcnt hrest ih =>
    intro cnt tail acc hle
    match cnt with
    | 0 => simp at hle
    | Nat.succ m =>
      simp only [List.cons_append, processBlocks]
      rw [if_neg (by simp [hlen]), if_neg (by decide : ¬ compMSZIP = compNone),
          if_pos True.intro, if_neg (by omega), if_neg (by simp [hsig]),
          mszip_if_dict, hinf]
      simp only []
      rw [if_neg (by omega)]
      simp only [List.append_eq]
      rw [ih m tail (acc ++ s.take d.cbUncomp) (by simpa using Nat.le_of_succ_le_succ hle)]
      simp [lastD, flatJoin, List.append_assoc, Nat.succ_sub_succ]

/-- Claim C2: for an MS-ZIP folder, `folderData` succeeds exactly when its
blocks decode in order per `MSZipDecodes` — the first block against the empty
dictionary, every later block against the immediately preceding block's kept
output — and then returns the in-order concatenation of the per-block
outputs; moreover a reachable block that passes the structural checks but
whose deflate stream errs or falls short of its declared uncompressed byte
count makes the folder fail with the decompression failure error. -/
theorem claim2_mszip (inflate : Inflate) (c : Cabinet) (idx : Nat)
    (fldr : CFFolder) (hf : c.fldrs[idx]? = some fldr)
    (htc : fldr.typeCompress = compMSZIP)
    (hn : fldr.ccfData ≤ (c.blocksAt fldr.coffCabStart).length) :
    (∀ buf, folderData inflate c idx = .ok buf ↔
      ∃ outs, MSZipDecodes inflate []
        ((c.blocksAt fldr.coffCabStart).take fldr.ccfData) outs ∧
        buf = flatJoin outs) ∧
    (∀ (j : Nat) (outs : List (List Nat)) (d : CFData),
      j < fldr.ccfData →
      MSZipDecodes inflate [] ((c.blocksAt fldr.coffCabStart).take j) outs →
      (c.blocksAt fldr.coffCabStart)[j]? = some d →
      d.payload.length = d.cbData → 2 ≤ d.payload.length →
      d.payload.take 2 = mszipSig →
      (∀ s, inflate (lastD outs []) (d.payload.drop 2) = some s →
        s.length < d.cbUncomp) →
      folderData inflate c idx = .err .decompressionFailure) := by
  constructor
  · intro buf
    simp only [folderData, hf, htc]
    rw [processBlocks_mszip_ok inflate fldr.ccfData (c.blocksAt fldr.coffCabStart)
      [] [] buf hn]
    simp
  · intro j outs d hj hdec hblk hlen hge2 hsig hshort
    rcases List.getElem?_eq_some.mp hblk with ⟨hjlt, hget⟩
    have hjlen : ((c.blocksAt fldr.coffCabStart).take j).length = j := by
      simp only [List.length_take]
      omega
    simp only [folderData, hf, htc]
    rw [show (c.blocksAt fldr.coffCabStart) =
        (c.blocksAt fldr.coffCabStart).take j ++
          (c.blocksAt fldr.coffCabStart).drop j
      from (List.take_append_drop j _).symm]
    rw [processBlocks_mszip_run inflate ((c.blocksAt fldr.coffCabStart).take j)
      [] outs hdec fldr.ccfData ((c.blocksAt fldr.coffCabStart).drop j) []
      (by rw [hjlen]; omega)]
    rw [hjlen]
    have hdrop : (c.blocksAt fldr.coffCabStart).drop j =
        d :: (c.blocksAt fldr.coffCabStart).drop (j + 1) := by
      rw [List.drop_eq_getElem_cons hjlt, hget]
    rw [hdrop]
    obtain ⟨m, hm⟩ : ∃ m, fldr.ccfData - j = m + 1 := ⟨fldr.ccfData - j - 1, by omega⟩
    rw [hm]
    simp only [processBlocks]
    rw [if_neg (by simp [hlen]), if_neg (by decide : ¬ compMSZIP = compNone),
        if_pos True.intro, if_neg (by omega), if_neg (by simp [hsig]),
        mszip_if_dict]
    cases hr : inflate (lastD outs []) (d.payload.drop 2) with
    | none => simp
    | some s =>
      have hs := hshort s hr
      simp only []
      rw [if_pos hs]

/-- Witness for C2 at a concrete two-block MS-ZIP folder decoded by
`inflEcho`: the declarative decode relation holds and produces the folder
buffer. -/
theorem claim2_mszip_witness :
    ∃ outs, MSZipDecodes inflEcho [] ((cabZip2.blocksAt 0).take 2) outs ∧
      ([9, 8, 3, 4] : List Nat) = flatJoin outs :=
  ((claim2_mszip inflEcho cabZip2 0 ⟨0, 2, 1⟩ (by decide) (by decide)
    (by decide)).1 [9, 8, 3, 4]).mp (by decide)

theorem countDecomps_from (inflate : Inflate) (cab : Cabinet)
    (hs : ∀ f ∈ cab.files, isOkF (folderData inflate cab f.iFolder) = true) :
    ∀ (n j : Nat), j + n = cab.files.length →
      ∀ (fuel : Nat), n ≤ fuel →
      ∀ (c : Option (List Nat × Nat)), (j = 0 ∨ c.isSome = true) →
      countDecomps inflate fuel ⟨cab, j, c⟩ =
        (List.range' j n).countP (transPred cab.files) := by
  intro n
  induction n with
  | zero =>
    intro j hj fuel _ c _
    have hnone : cab.files[j]? = none := List.getElem?_eq_none (by omega)
    match fuel with
    | 0 => simp [countDecomps]
    | Nat.succ m => simp [countDecomps, next, hnone]
  | succ n ih =>
    intro j hj fuel hfuel c hinv
    match fuel with
    | 0 => omega
    | Nat.succ m =>
      have hm : n ≤ m := Nat.le_of_succ_le_succ hfuel
      have hjlt : j < cab.files.length := by omega
      obtain ⟨f, hf⟩ : ∃ f, cab.files[j]? = some f :=
        ⟨cab.files[j], List.getElem?_eq_getElem hjlt⟩
      have hfm : f ∈ cab.files := by
        rcases List.getElem?_eq_some.mp hf with ⟨h, rfl⟩
        exact List.getElem_mem h
      obtain ⟨buf, hbuf⟩ : ∃ buf, folderData inflate cab f.iFolder = .ok buf := by
        have hok := hs f hfm
        cases hfd : folderData inflate cab f.iFolder with
        | ok b => exact ⟨b, rfl⟩
        | err e => rw [hfd] at hok; simp [isOkF] at hok
        | panicked => rw [hfd] at hok; simp [isOkF] at hok
      have hpred : transPred cab.files j =
          (j == 0 || ((cab.files[j - 1]?).map CFFile.iFolder != some f.iFolder)) := by
        simp [transPred, hf]
      have hrange : (List.range' j (n + 1)).countP (transPred cab.files) =
          (if transPred cab.files j then 1 else 0) +
            (List.range' (j + 1) n).countP (transPred cab.files) := by
        rw [List.range'_succ, List.countP_cons]
        cases hp : transPred cab.files j <;> simp [hp, Nat.add_comm]
      cases hb : (j == 0 || ((cab.files[j - 1]?).map CFFile.iFolder != some f.iFolder)) with
      | true =>
        have hstep : next inflate ⟨cab, j, c⟩ =
            ⟨.ok f.name f.cbFile, ⟨cab, j + 1, some (buf, f.uoffFolderStart)⟩, true⟩ := by
          simp only [next, hf, hb, if_true, hbuf]
        rw [countDecomps, hstep]
        simp only
        rw [ih (j + 1) (by omega) m hm (some (buf, f.uoffFolderStart)) (Or.inr rfl)]
        rw [hrange, hpred, hb]
        simp
      | false =>
        have hj0 : j ≠ 0 := by
          intro h
          subst h
          simp at hb
        obtain ⟨p, hp⟩ : ∃ p : List Nat × Nat, c = some p := by
          rcases hinv with h | h
          · exact absurd h hj0
          · cases c with
            | none => simp at h
            | some p => exact ⟨p, rfl⟩
        have hstep : next inflate ⟨cab, j, c⟩ =
            ⟨.ok f.name f.cbFile, ⟨cab, j + 1, some (p.1, f.uoffFolderStart)⟩, false⟩ := by
          simp [next, hf, hb, hp]
        rw [countDecomps, hstep]
        simp only
        rw [ih (j + 1) (by omega) m hm (some (p.1, f.uoffFolderStart)) (Or.inr rfl)]
        rw [hrange, hpred, hb]

/-- Claim C4: iterating `Next` from a fresh cabinet to exhaustion, when every
file's folder decompresses successfully, invokes folder decompression exactly
`m` times, where `m` counts the file indices `i` with `i = 0` or a folder
index differing from file `i-1`'s (the folder-transition count). -/
theorem claim4_iter_decomps (inflate : Inflate) (cab : Cabinet)
    (hs : ∀ f ∈ cab.files, isOkF (folderData inflate cab f.iFolder) = true)
    (fuel : Nat) (hfuel : cab.files.length ≤ fuel) :
    countDecomps inflate fuel (freshIter cab) = folderTransitionCount cab.files := by
  have h := countDecomps_from inflate cab hs cab.files.length 0 (by omega)
    fuel hfuel none (Or.inl rfl)
  rw [freshIter, h, folderTransitionCount, List.range_eq_range']

/-- Witness for C4: three files over two folders decompress exactly twice. -/
theorem claim4_iter_decomps_witness :
    countDecomps inflEcho 3 (freshIter cabThreeFiles) =
      folderTransitionCount cabThreeFiles.files ∧
    folderTransitionCount cabThreeFiles.files = 2 :=
  ⟨claim4_iter_decomps inflEcho cabThreeFiles (by decide) 3 (by decide),
   by decide⟩

/-- Claim C10: a reader returned by `Next` aliases the iterator's shared
cached folder buffer: immediately after the call, the shared cursor sits at
the file's folder offset and fully reading up to the declared size yields the
range `[fileOffset, fileOffset + fileSize)` of the cached buffer (of full
length when in bounds); but after a further `Next` call for a same-folder
file the shared cursor has moved, so the earlier reader now yields the later
file's bytes — demonstrated concretely on `cabTwoReaders`. -/
theorem claim10_next_reader :
    (∀ (inflate : Inflate) (st : IterState) (f : CFFile),
      st.cab.files[st.nextIdx]? = some f →
      (next inflate st).res = .ok f.name f.cbFile →
      ∃ buf, (next inflate st).st.cached = some (buf, f.uoffFolderStart) ∧
        readShared (next inflate st).st f.cbFile =
          (buf.drop f.uoffFolderStart).take f.cbFile ∧
        (f.uoffFolderStart + f.cbFile ≤ buf.length →
          (readShared (next inflate st).st f.cbFile).length = f.cbFile)) ∧
    readShared (next inflEcho (freshIter cabTwoReaders)).st 2 = [10, 11] ∧
    readShared (next inflEcho (next inflEcho (freshIter cabTwoReaders)).st).st 2 =
      [12, 13] ∧
    ([12, 13] : List Nat) ≠ [10, 11] := by
  refine ⟨?_, by decide, by decide, by decide⟩
  intro inflate st f hf hres
  cases hb : (st.nextIdx == 0 ||
      ((st.cab.files[st.nextIdx - 1]?).map CFFile.iFolder != some f.iFolder)) with
  | true =>
    cases hfd : folderData inflate st.cab f.iFolder with
    | ok buf =>
      have hstep : next inflate st =
          ⟨.ok f.name f.cbFile, ⟨st.cab, st.nextIdx + 1,
            some (buf, f.uoffFolderStart)⟩, true⟩ := by
        simp only [next, hf, hb, if_true, hfd]
      refine ⟨buf, ?_, ?_, ?_⟩
      · rw [hstep]
      · rw [hstep]; simp [readShared]
      · intro hle
        rw [hstep]
        simp only [readShared, List.length_take, List.length_drop]
        omega
    | err e =>
      have hstep : next inflate st = ⟨.err e, st, true⟩ := by
        simp only [next, hf, hb, if_true, hfd]
      rw [hstep] at hres
      simp at hres
    | panicked =>
      have hstep : next inflate st = ⟨.panicked, st, true⟩ := by
        simp only [next, hf, hb, if_true, hfd]
      rw [hstep] at hres
      simp at hres
  | false =>
    cases hc : st.cached with
    | some p =>
      have hstep : next inflate st =
          ⟨.ok f.name f.cbFile, ⟨st.cab, st.nextIdx + 1,
            some (p.1, f.uoffFolderStart)⟩, false⟩ := by
        simp [next, hf, hb, hc]
      refine ⟨p.1, ?_, ?_, ?_⟩
      · rw [hstep]
      · rw [hstep]; simp [readShared]
      · intro hle
        rw [hstep]
        simp only [readShared, List.length_take, List.length_drop]
        omega
    | none =>
      have hstep : next inflate st = ⟨.panicked, st, false⟩ := by
        simp [next, hf, hb, hc]
      rw [hstep] at hres
      simp at hres

/-- Witness for C10's universally quantified part at a concrete fresh
iterator and file. -/
theorem claim10_next_reader_witness :
    ∃ buf, (next inflEcho (freshIter cabTwoReaders)).st.cached = some (buf, 0) ∧
      readShared (next inflEcho (freshIter cabTwoReaders)).st 2 =
        (buf.drop 0).take 2 ∧
      ((0 : Nat) + 2 ≤ buf.length →
        (readShared (next inflEcho (freshIter cabTwoReaders)).st 2).length = 2) :=
  claim10_next_reader.1 inflEcho (freshIter cabTwoReaders) (mkFile 2 0 0 "a")
    (by decide) (by decide)

end GoCab

namespace Lvfs

theorem prCompare_mem (a b : PRVersion) :
    prCompare a b = -1 ∨ prCompare a b = 0 ∨ prCompare a b = 1 := by
  cases a <;> cases b <;> simp only [prCompare] <;>
    first
    | (split_ifs <;> simp)
    | simp

theorem prListCompare_mem :
    ∀ as bs : List PRVersion, prListCompare as bs = -1 ∨
      prListCompare as bs = 0 ∨ prListCompare as bs = 1 := by
  intro as
  induction as with
  | nil => intro bs; cases bs <;> simp [prListCompare]
  | cons a as ih =>
    intro bs
    cases bs with
    | nil => simp [prListCompare]
    | cons b bs =>
      simp only [prListCompare]
      by_cases h : prCompare a b = 0
      · simpa [h] using ih bs
      · rcases prCompare_mem a b with h1 | h1 | h1
        · simp [h, h1]
        · exact absurd h1 h
        · simp [h, h1]

theorem semverCompare_mem (v o : SemVer) :
    semverCompare v o = -1 ∨ semverCompare v o = 0 ∨ semverCompare v o = 1 := by
  simp only [semverCompare]
  split_ifs <;> try simp
  cases hv : v.pre <;> cases ho : o.pre <;> simp
  exact prListCompare_mem _ _

theorem stringsCompare_mem (a b : String) :
    stringsCompare a b = -1 ∨ stringsCompare a b = 0 ∨ stringsCompare a b = 1 := by
  simp only [stringsCompare]
  split_ifs <;> simp

theorem semverCompare_no_pre (s1 s2 : SemVer) (h1 : s1.pre = [])
    (h2 : s2.pre = []) : semverCompare s1 s2 = componentCompare s1 s2 := by
  simp only [semverCompare, componentCompare, h1, h2]

/-- Claim C9: `CompareVersions` always yields -1, 0 or +1; when both inputs
parse as structured three-component versions it returns their structured
semver comparison (which for versions without pre-release identifiers is the
purely component-wise numeric comparison), otherwise the byte-wise
lexicographic string comparison; together with the specification's five
concrete comparison examples. -/
theorem claim9_compare_versions :
    (∀ v1 v2 : String, CompareVersions v1 v2 = -1 ∨
      CompareVersions v1 v2 = 0 ∨ CompareVersions v1 v2 = 1) ∧
    (∀ (v1 v2 : String) (s1 s2 : SemVer),
      semverMake v1 = some s1 → semverMake v2 = some s2 →
      CompareVersions v1 v2 = semverCompare s1 s2 ∧
      (s1.pre = [] → s2.pre = [] →
        CompareVersions v1 v2 = componentCompare s1 s2)) ∧
    (∀ v1 v2 : String, (semverMake v1 = none ∨ semverMake v2 = none) →
      CompareVersions v1 v2 = stringsCompare v1 v2) ∧
    CompareVersions "1.0.0" "1.0.1" = -1 ∧
    CompareVersions "1.0.0" "1.0.0" = 0 ∧
    CompareVersions "123" "100" = 1 ∧
    CompareVersions "12" "9" = -1 ∧
    CompareVersions "RQR12.07_B0030" "RQR12.07_B0029" = 1 := by
  refine ⟨?_, ?_, ?_, by decide, by decide, by decide, by decide, by decide⟩
  · intro v1 v2
    unfold CompareVersions
    cases h1 : semverMake v1 <;> cases h2 : semverMake v2
    · exact stringsCompare_mem v1 v2
    · exact stringsCompare_mem v1 v2
    · exact stringsCompare_mem v1 v2
    · exact semverCompare_mem _ _
  · intro v1 v2 s1 s2 h1 h2
    have hc : CompareVersions v1 v2 = semverCompare s1 s2 := by
      unfold CompareVersions
      rw [h1, h2]
    refine ⟨hc, fun hp1 hp2 => ?_⟩
    rw [hc]
    exact semverCompare_no_pre s1 s2 hp1 hp2
  · intro v1 v2 h
    unfold CompareVersions
    rcases h with h | h
    · rw [h]
      cases semverMake v2 <;> rfl
    · rw [h]
      cases semverMake v1 <;> rfl

/-- Witness for C9's quantified parts at concrete versions: "1.0.0" and
"1.0.1" compare structurally, and their comparison is component-wise. -/
theorem claim9_compare_versions_witness :
    CompareVersions "1.0.0" "1.0.1" =
      semverCompare ⟨1, 0, 0, []⟩ ⟨1, 0, 1, []⟩ ∧
    CompareVersions "1.0.0" "1.0.1" =
      componentCompare ⟨1, 0, 0, []⟩ ⟨1, 0, 1, []⟩ := by
  have h := claim9_compare_versions.2.1 "1.0.0" "1.0.1" ⟨1, 0, 0, []⟩
    ⟨1, 0, 1, []⟩ (by decide) (by decide)
  exact ⟨h.1, h.2 rfl rfl⟩

end Lvfs
